import Mathlib

/-
  Verification of the MoySklad finance pipeline core
  (attribute extraction, cost resolution, proportional allocation),
  shallowly embedded from src/optimized_script.py and src/final.py.
  Python floats are modelled as exact rationals; minor-unit amounts are
  divided by 100 exactly where the source does.
-/

/-- Lowercasing of one character as Python str.lower acts on the alphabets
the classifier uses: ASCII A-Z and Cyrillic А-Я (plus Ё).  Lean's builtin
Char.toLower is ASCII-only, so the Cyrillic range is handled explicitly. -/
def lowerChar (c : Char) : Char :=
  if 65 ≤ c.toNat ∧ c.toNat ≤ 90 then Char.ofNat (c.toNat + 32)
  else if 0x410 ≤ c.toNat ∧ c.toNat ≤ 0x42F then Char.ofNat (c.toNat + 32)
  else if c.toNat = 0x401 then Char.ofNat 0x451
  else c

/-- attr_name.lower() as a character list. -/
def lowerStr (s : String) : List Char := s.data.map lowerChar

/-- needle occurs as a contiguous run somewhere in hay. -/
def containsSubAux (needle : List Char) : List Char → Bool
  | [] => needle.isEmpty
  | c :: t => needle.isPrefixOf (c :: t) || containsSubAux needle t

/-- Python substring membership: needle in hay. -/
def containsSub (hay : List Char) (needle : String) : Bool :=
  containsSubAux needle.data hay

/-- Value of a custom attribute as observed by the extractor: null or the
empty string (skipped by the first guard), a non-numeric string (float()
raises, skipped by the except), or a successfully coerced number. -/
inductive AttrValue where
  | nullOrEmpty : AttrValue
  | nonNumeric : AttrValue
  | num : ℚ → AttrValue
deriving DecidableEq

/-- One name/value custom attribute of an order. -/
structure OrderAttr where
  name : String
  value : AttrValue
deriving DecidableEq

/-- The numeric value of an attribute, if the two skip guards pass. -/
def numVal (a : OrderAttr) : Option ℚ :=
  match a.value with
  | .num q => some q
  | _ => none

/-- Accumulator / result record of extract_commission_and_delivery. -/
structure ExtractAcc where
  commissionPercent : ℚ
  commissionSum : ℚ
  deliveryCost : ℚ
deriving DecidableEq

/-- The commission elif-chain of extract_commission_and_delivery
(src/optimized_script.py lines 137-150), applied to one numeric attribute. -/
def commissionStep (acc : ExtractAcc) (name : String) (v : ℚ) : ExtractAcc :=
  let nl := lowerStr name
  if containsSub nl "комисс" && containsSub nl "товар" then
    { acc with commissionSum := acc.commissionSum + v }
  else if containsSub nl "комисс" && containsSub nl "доставк" then
    { acc with commissionSum := acc.commissionSum + v }
  else if containsSub nl "комисс" then
    if containsSub name.data "%" then
      { acc with commissionPercent := v }
    else if containsSub nl "сумма" then
      { acc with commissionSum := acc.commissionSum + v }
    else acc
  else acc

/-- The delivery condition of extract_commission_and_delivery
(src/optimized_script.py lines 153-156): a delivery keyword, no
commission keyword, and one of the cost keywords. -/
def deliveryRuleB (name : String) : Bool :=
  (containsSub (lowerStr name) "доставк" || containsSub (lowerStr name) "delivery")
    && !containsSub (lowerStr name) "комисс"
    && (containsSub (lowerStr name) "стоимость" || containsSub (lowerStr name) "сумма"
        || containsSub (lowerStr name) "цена" || containsSub (lowerStr name) "cost")

/-- Loop body of OrderProcessor.extract_commission_and_delivery
(src/optimized_script.py lines 121-157): skip guards, then the
elif-chain on commission keywords, then the independent delivery check. -/
def extractStep (acc : ExtractAcc) (a : OrderAttr) : ExtractAcc :=
  match numVal a with
  | none => acc
  | some v =>
    let acc1 := commissionStep acc a.name v
    if deliveryRuleB a.name then
      { acc1 with deliveryCost := acc1.deliveryCost + v }
    else acc1

/-- The attribute loop, folded left over the attribute list. -/
def extractLoop (attrs : List OrderAttr) : ExtractAcc :=
  attrs.foldl extractStep ⟨0, 0, 0⟩

/-- OrderProcessor.extract_commission_and_delivery
(src/optimized_script.py lines 112-168).  orderSumMinor is the raw
order["sum"] field in minor currency units. -/
def extract_commission_and_delivery (attrs : List OrderAttr) (orderSumMinor : ℚ) :
    ExtractAcc :=
  let acc := extractLoop attrs
  let orderSum := orderSumMinor / 100
  if 0 < acc.commissionPercent ∧ acc.commissionSum = 0 then
    { acc with commissionSum := orderSum * (acc.commissionPercent / 100) }
  else acc

/- ===== Cost resolution (src/final.py OrderProcessor.get_buy_price_for_item,
   lines 143-214) ===== -/

/-- A catalog entry as the resolver sees it: the expanded assortment object.
buyPrice models the buyPrice sub-dict (none when the dict is missing/empty,
the inner value defaulting to 0 is covered by some 0); article and
productHref model item.get('article') and
item.get('product').get('meta').get('href'). -/
structure Item where
  id : String
  buyPrice : Option ℚ
  article : Option String
  productHref : Option String
deriving DecidableEq

/-- The resolver's result record: a buy price in minor units and the
human-readable source tag. -/
structure CostInfo where
  value : ℚ
  source : String
deriving DecidableEq

/-- Python dict lookup, modelled on an association list (newest entry wins,
as with dict assignment). -/
def alookup {α : Type} (m : List (String × α)) (k : String) : Option α :=
  (m.find? (fun p => p.1 == k)).map (fun p => p.2)

/-- Python dict assignment d[k] = v. -/
def ainsert {α : Type} (m : List (String × α)) (k : String) (v : α) :
    List (String × α) :=
  (k, v) :: m

/-- The two mutable caches of final.py's OrderProcessor: product_cache is
keyed by article, buy_price_cache by item id. -/
structure RState where
  productCache : List (String × Item)
  buyPriceCache : List (String × CostInfo)
deriving DecidableEq

/-- The external MoySklad API from the resolver's point of view: pure
lookup functions (same input, same answer within a batch); a network or
HTTP failure is modelled as none, exactly what MoySkladAPI returns after
catching the exception (src/final.py lines 85-112). -/
structure Api where
  productByArticle : String → Option Item
  itemByHref : String → Option Item

/-- The not-found result: buy price 0, source tag as in the source. -/
def notFoundInfo : CostInfo := ⟨0, "не найдена"⟩

/-- The source tag for a bundle resolved through its same-article product. -/
def bundleSource (a : String) : String := "основной товар (арт. " ++ a ++ ")"

/-- The else-branch of final.py's variant case (lines 194-205): fetch the
base product by the href in item.product.meta and use its buy price.
get_item_by_href returns None without a request when the href is falsy,
so the call counter stays 0 in that case.  Returns (result, state, number
of external calls). -/
def variantBase (api : Api) (st : RState) (item : Item) :
    CostInfo × RState × ℕ :=
  match item.productHref with
  | none => (notFoundInfo, st, 0)
  | some href =>
    if href = "" then (notFoundInfo, st, 0)
    else
      match api.itemByHref href with
      | some base =>
        match base.buyPrice with
        | some w =>
          if 0 < w then (⟨w, "базовый товар модификации"⟩, st, 1)
          else (notFoundInfo, st, 1)
        | none => (notFoundInfo, st, 1)
      | none => (notFoundInfo, st, 1)

/-- The body of final.py's get_buy_price_for_item below the buy-price-cache
check (lines 159-205): the type dispatch computing buy_price and source;
for bundles it consults product_cache by article, falls back to the
external article lookup and caches the product only when one was found;
for variants it prefers the own buy price, else fetches the base product. -/
def resolveFresh (api : Api) (st : RState) (item : Item)
    (itemType : String) : CostInfo × RState × ℕ :=
  if itemType = "product" then
    match item.buyPrice with
    | some v => if 0 < v then (⟨v, "товар"⟩, st, 0) else (notFoundInfo, st, 0)
    | none => (notFoundInfo, st, 0)
  else if itemType = "bundle" then
    match item.article with
    | some a =>
      if a = "" then (notFoundInfo, st, 0)
      else
        match alookup st.productCache a with
        | some base =>
          match base.buyPrice with
          | some v =>
            if 0 < v then (⟨v, bundleSource a⟩, st, 0)
            else (notFoundInfo, st, 0)
          | none => (notFoundInfo, st, 0)
        | none =>
          match api.productByArticle a with
          | some base =>
            let st1 : RState :=
              { st with productCache := ainsert st.productCache a base }
            match base.buyPrice with
            | some v =>
              if 0 < v then (⟨v, bundleSource a⟩, st1, 1)
              else (notFoundInfo, st1, 1)
            | none => (notFoundInfo, st1, 1)
          | none => (notFoundInfo, st, 1)
    | none => (notFoundInfo, st, 0)
  else if itemType = "variant" then
    match item.buyPrice with
    | some v => if 0 < v then (⟨v, "модификация"⟩, st, 0) else variantBase api st item
    | none => variantBase api st item
  else (notFoundInfo, st, 0)

/-- OrderProcessor.get_buy_price_for_item of src/final.py (lines 143-214):
check the buy-price cache by item id, otherwise compute the price fresh
and store the result in the buy-price cache under the item id.  The ℕ
component counts external API calls made by this invocation. -/
def get_buy_price_for_item (api : Api) (st : RState) (item : Item)
    (itemType : String) : CostInfo × RState × ℕ :=
  match alookup st.buyPriceCache item.id with
  | some r => (r, st, 0)
  | none =>
    let computed := resolveFresh api st item itemType
    (computed.1,
     { computed.2.1 with
        buyPriceCache := ainsert computed.2.1.buyPriceCache item.id computed.1 },
     computed.2.2)

/-- Sequential resolution of a batch of line items, as the per-position
loops of extract_positions_data / calculate_order_summary perform it,
threading the caches and accumulating the external call count. -/
def resolveAll (api : Api) (st : RState) : List (Item × String) → RState × ℕ
  | [] => (st, 0)
  | q :: rest =>
    let step := get_buy_price_for_item api st q.1 q.2
    let restRes := resolveAll api step.2.1 rest
    (restRes.1, step.2.2 + restRes.2)

/- ===== The allocation engine
   (src/optimized_script.py OrderProcessor.process_orders, lines 207-316) ===== -/

/-- OrderProcessor.get_buy_price_for_item of src/optimized_script.py
(lines 172-205): the pure variant used by the batch engine; the products
cache (article to product) is passed in, a variant never falls back to its
base product here. -/
def get_buy_price_opt (item : Item) (itemType : String)
    (productsCache : List (String × Item)) : CostInfo :=
  if itemType = "product" then
    match item.buyPrice with
    | some v => if 0 < v then ⟨v, "товар"⟩ else notFoundInfo
    | none => notFoundInfo
  else if itemType = "bundle" then
    match item.article with
    | some a =>
      if a = "" then notFoundInfo
      else
        match alookup productsCache a with
        | some base =>
          match base.buyPrice with
          | some v => if 0 < v then ⟨v, bundleSource a⟩ else notFoundInfo
          | none => notFoundInfo
        | none => notFoundInfo
    | none => notFoundInfo
  else if itemType = "variant" then
    match item.buyPrice with
    | some v => if 0 < v then ⟨v, "модификация"⟩ else notFoundInfo
    | none => notFoundInfo
  else notFoundInfo

/-- Rounding to two decimal places at the emission boundary, as round(x, 2)
in the source: nearest multiple of 1/100 (half rounded up). -/
def round2 (q : ℚ) : ℚ := (⌊q * 100 + 1 / 2⌋ : ℤ) / 100

/-- One line item of an order, as process_orders reads it from
positions rows: the expanded assortment, its meta type, quantity and the
unit price in minor units. -/
structure Position where
  assortment : Item
  itemType : String
  quantity : ℚ
  priceMinor : ℚ
deriving DecidableEq

/-- The per-position share of the order used to allocate delivery and
commission (src/optimized_script.py line 249). -/
def positionShare (orderSum : ℚ) (totalPositions : ℕ) (positionSum : ℚ) : ℚ :=
  if 0 < orderSum then positionSum / orderSum
  else if 0 < totalPositions then 1 / (totalPositions : ℚ) else 0

/-- One emitted row of the per-position table together with the raw
(pre-rounding) local values the loop body computes; the R-suffixed fields
are the rounded columns actually written out. -/
structure PositionRow where
  orderName : String
  itemType : String
  quantity : ℚ
  price : ℚ
  positionSum : ℚ
  costPerUnit : ℚ
  share : ℚ
  productCost : ℚ
  deliveryAlloc : ℚ
  commissionAlloc : ℚ
  fullCost : ℚ
  profit : ℚ
  marginPercent : ℚ
  source : String
  productCostR : ℚ
  deliveryAllocR : ℚ
  commissionAllocR : ℚ
  fullCostR : ℚ
deriving DecidableEq

/-- The body of the per-position loop of process_orders
(src/optimized_script.py lines 236-291). -/
def processPosition (orderName : String) (costs : ExtractAcc) (orderSum : ℚ)
    (totalPositions : ℕ) (productsCache : List (String × Item))
    (pos : Position) : PositionRow :=
  let bp := get_buy_price_opt pos.assortment pos.itemType productsCache
  let costPerUnit := if 0 < bp.value then bp.value / 100 else 0
  let price := pos.priceMinor / 100
  let positionSum := price * pos.quantity
  let share := positionShare orderSum totalPositions positionSum
  let deliveryAlloc := costs.deliveryCost * share
  let commissionAlloc := costs.commissionSum * share
  let productCost := costPerUnit * pos.quantity
  let fullCost := productCost + deliveryAlloc + commissionAlloc
  let profit := positionSum - fullCost
  let marginPercent := if 0 < positionSum then profit / positionSum * 100 else 0
  { orderName := orderName
    itemType := pos.itemType
    quantity := pos.quantity
    price := price
    positionSum := positionSum
    costPerUnit := costPerUnit
    share := share
    productCost := productCost
    deliveryAlloc := deliveryAlloc
    commissionAlloc := commissionAlloc
    fullCost := fullCost
    profit := profit
    marginPercent := marginPercent
    source := bp.source
    productCostR := round2 productCost
    deliveryAllocR := round2 deliveryAlloc
    commissionAllocR := round2 commissionAlloc
    fullCostR := round2 fullCost }

/-- An order as process_orders consumes it: name, raw monetary totals in
minor units, the custom attributes and the expanded position rows. -/
structure Order where
  name : String
  sumMinor : ℚ
  vatSumMinor : ℚ
  attributes : List OrderAttr
  positions : List Position
deriving DecidableEq

/-- The per-order summary row (src/optimized_script.py lines 298-310);
raw values are kept next to the rounded emitted ones (revenue, delivery,
commission, fullCostR, vat, netProfit and margin are emitted after
round2; costAvailable is computed on the raw accumulator). -/
structure OrderSummary where
  orderName : String
  revenue : ℚ
  totalProductCost : ℚ
  deliveryCost : ℚ
  commissionSum : ℚ
  orderCost : ℚ
  fullCostR : ℚ
  vatSum : ℚ
  netProfit : ℚ
  marginPercent : ℚ
  positionCount : ℕ
  costAvailable : Bool
deriving DecidableEq

/-- The per-order body of process_orders (src/optimized_script.py lines
216-312): extract shared costs, build one row per position, accumulate the
raw full costs into order_cost, and build the summary.  prevRows is the
positions_data list accumulated over the previous orders; the
totalProductCost cell sums the rounded per-line product costs of every
accumulated row whose order number equals this order's name (line 301). -/
def processOrder (productsCache : List (String × Item))
    (prevRows : List PositionRow) (order : Order) :
    List PositionRow × OrderSummary :=
  let costs := extract_commission_and_delivery order.attributes order.sumMinor
  let orderSum := order.sumMinor / 100
  let n := order.positions.length
  let rows := order.positions.map
    (processPosition order.name costs orderSum n productsCache)
  let orderCost := (rows.map PositionRow.fullCost).sum
  let vatSum := order.vatSumMinor / 100
  let netProfit := orderSum - orderCost - vatSum
  let margin := if 0 < orderSum then netProfit / orderSum * 100 else 0
  let allRows := prevRows ++ rows
  let totalProductCost := round2
    (((allRows.filter (fun r => r.orderName == order.name)).map
        PositionRow.productCostR).sum)
  (rows,
   { orderName := order.name
     revenue := orderSum
     totalProductCost := totalProductCost
     deliveryCost := costs.deliveryCost
     commissionSum := costs.commissionSum
     orderCost := orderCost
     fullCostR := round2 orderCost
     vatSum := vatSum
     netProfit := netProfit
     marginPercent := margin
     positionCount := n
     costAvailable := decide (0 < orderCost) })

/-- The batch loop of process_orders, threading the accumulated
positions_data through the orders. -/
def processOrdersAux (productsCache : List (String × Item))
    (prevRows : List PositionRow) : List Order → List PositionRow × List OrderSummary
  | [] => (prevRows, [])
  | o :: rest =>
    let this := processOrder productsCache prevRows o
    let restRes := processOrdersAux productsCache (prevRows ++ this.1) rest
    (restRes.1, this.2 :: restRes.2)

/-- OrderProcessor.process_orders (src/optimized_script.py lines 207-316):
returns the full positions table and the summary per order. -/
def process_orders (productsCache : List (String × Item)) (orders : List Order) :
    List PositionRow × List OrderSummary :=
  processOrdersAux productsCache [] orders

/- ===== Helper lemmas ===== -/

theorem alookup_ainsert {α : Type} (m : List (String × α)) (k k2 : String) (v : α) :
    alookup (ainsert m k v) k2 = if k = k2 then some v else alookup m k2 := by
  by_cases h : k = k2
  · subst h
    simp [alookup, ainsert, List.find?]
  · have hb : (k == k2) = false := beq_eq_false_iff_ne.mpr h
    simp [alookup, ainsert, List.find?, hb, h]

theorem abs_round2_sub_le (q : ℚ) : |round2 q - q| ≤ 1 / 200 := by
  rw [round2, abs_le]
  constructor
  · have h := Int.lt_floor_add_one (q * 100 + 1 / 2)
    linarith
  · have h := Int.floor_le (q * 100 + 1 / 2)
    linarith

theorem round2_intCast_div (k : ℤ) : round2 ((k : ℚ) / 100) = (k : ℚ) / 100 := by
  rw [round2]
  have h1 : (k : ℚ) / 100 * 100 + 1 / 2 = (k : ℚ) + 1 / 2 := by ring
  rw [h1, Int.floor_int_add]
  norm_num

theorem round2_shape (q : ℚ) : ∃ k : ℤ, round2 q = (k : ℚ) / 100 :=
  ⟨⌊q * 100 + 1 / 2⌋, rfl⟩

theorem sum_round2_err : ∀ l : List ℚ, |(l.map round2).sum - l.sum| ≤ (l.length : ℚ) / 200
  | [] => by simp
  | a :: t => by
    have ih := sum_round2_err t
    have h1 := abs_round2_sub_le a
    simp only [List.map_cons, List.sum_cons, List.length_cons]
    have h2 : round2 a + (t.map round2).sum - (a + t.sum)
        = (round2 a - a) + ((t.map round2).sum - t.sum) := by ring
    rw [h2]
    have h4 : ((t.length + 1 : ℕ) : ℚ) / 200 = 1 / 200 + (t.length : ℚ) / 200 := by
      push_cast
      ring
    rw [h4]
    calc |(round2 a - a) + ((t.map round2).sum - t.sum)|
        ≤ |round2 a - a| + |(t.map round2).sum - t.sum| := abs_add _ _
      _ ≤ 1 / 200 + (t.length : ℚ) / 200 := add_le_add h1 ih

theorem exists_int_div_sum :
    ∀ l : List ℚ, (∀ x ∈ l, ∃ k : ℤ, x = (k : ℚ) / 100) →
      ∃ k : ℤ, l.sum = (k : ℚ) / 100
  | [], _ => ⟨0, by simp⟩
  | a :: t, h => by
    obtain ⟨k1, hk1⟩ := h a (List.mem_cons_self a t)
    obtain ⟨k2, hk2⟩ := exists_int_div_sum t (fun x hx => h x (List.mem_cons_of_mem a hx))
    refine ⟨k1 + k2, ?_⟩
    rw [List.sum_cons, hk1, hk2]
    push_cast
    ring

theorem round2_fix_sum (l : List ℚ)
    (h : ∀ x ∈ l, ∃ k : ℤ, x = (k : ℚ) / 100) :
    round2 l.sum = l.sum := by
  obtain ⟨k, hk⟩ := exists_int_div_sum l h
  rw [hk, round2_intCast_div]

theorem alloc_sum_round2 (c : ℚ) (shares : List ℚ) (hs : shares.sum = 1) :
    |((shares.map (fun s => round2 (c * s))).sum) - c| ≤ (shares.length : ℚ) / 100 := by
  have h0 : shares.map (fun s => round2 (c * s))
      = (shares.map (fun s => c * s)).map round2 := by
    rw [List.map_map]
    rfl
  have h1 : (shares.map (fun s => c * s)).sum = c := by
    rw [show (fun s => c * s) = (fun s : ℚ => c * id s) from rfl,
      List.sum_map_mul_left, List.map_id, hs, mul_one]
  have hlen : (0 : ℚ) ≤ (shares.length : ℚ) := Nat.cast_nonneg _
  calc |((shares.map (fun s => round2 (c * s))).sum) - c|
      = |((shares.map (fun s => c * s)).map round2).sum
          - (shares.map (fun s => c * s)).sum| := by rw [h0, h1]
    _ ≤ ((shares.map (fun s => c * s)).length : ℚ) / 200 := sum_round2_err _
    _ = (shares.length : ℚ) / 200 := by rw [List.length_map]
    _ ≤ (shares.length : ℚ) / 100 := by linarith

theorem shares_sum_one (osum : ℚ) (l : List ℚ)
    (H : (0 < osum ∧ l.sum = osum) ∨ (osum ≤ 0 ∧ l ≠ [])) :
    (l.map (fun r => positionShare osum l.length r)).sum = 1 := by
  rcases H with ⟨hpos, hsum⟩ | ⟨hle, hne⟩
  · simp only [positionShare, if_pos hpos]
    rw [show (fun r : ℚ => r / osum) = (fun r : ℚ => id r * osum⁻¹) from by
      funext r
      simp [div_eq_mul_inv]]
    rw [List.sum_map_mul_right, List.map_id, hsum, mul_inv_cancel₀ (ne_of_gt hpos)]
  · have hnpos : ¬ 0 < osum := not_lt.mpr hle
    have hlen : 0 < l.length := List.length_pos.mpr hne
    have hlenq : ((l.length : ℚ)) ≠ 0 := by
      exact_mod_cast Nat.pos_iff_ne_zero.mp hlen
    simp only [positionShare, if_neg hnpos, if_pos hlen]
    rw [List.map_const', List.sum_replicate, nsmul_eq_mul]
    field_simp

theorem round2_eq_self (q : ℚ) (k : ℤ) (h : q * 100 = (k : ℚ)) : round2 q = q := by
  have hq : q = (k : ℚ) / 100 := by
    rw [eq_div_iff (by norm_num : (100 : ℚ) ≠ 0)]
    exact h
  rw [hq, round2_intCast_div]

/- ===== Claim theorems ===== -/

/-- Claim C1 (amended): for every order in which either the revenue is
positive and the per-line revenues sum to it, or the revenue is
non-positive and the order has at least one line, the emitted (rounded)
per-line delivery allocations sum to the extracted delivery cost within
0.01 currency unit per line times the line count, and likewise the
commission allocations sum to the extracted commission sum. -/
theorem C1_allocation_reconciliation (productsCache : List (String × Item))
    (prevRows : List PositionRow) (order : Order)
    (H : (0 < order.sumMinor / 100 ∧
            (order.positions.map (fun p => p.priceMinor / 100 * p.quantity)).sum
              = order.sumMinor / 100)
        ∨ (order.sumMinor / 100 ≤ 0 ∧ order.positions ≠ [])) :
    |(((processOrder productsCache prevRows order).1.map PositionRow.deliveryAllocR).sum)
        - (extract_commission_and_delivery order.attributes order.sumMinor).deliveryCost|
      ≤ (order.positions.length : ℚ) / 100
    ∧ |(((processOrder productsCache prevRows order).1.map PositionRow.commissionAllocR).sum)
        - (extract_commission_and_delivery order.attributes order.sumMinor).commissionSum|
      ≤ (order.positions.length : ℚ) / 100 := by
  have hproc : (processOrder productsCache prevRows order).1
      = order.positions.map (processPosition order.name
          (extract_commission_and_delivery order.attributes order.sumMinor)
          (order.sumMinor / 100) order.positions.length productsCache) := rfl
  have hlen : (order.positions.map (fun p => p.priceMinor / 100 * p.quantity)).length
      = order.positions.length := List.length_map _ _
  have hs : ((order.positions.map (fun p => p.priceMinor / 100 * p.quantity)).map
      (fun r => positionShare (order.sumMinor / 100) order.positions.length r)).sum
        = 1 := by
    rw [← hlen]
    apply shares_sum_one
    rcases H with ⟨h1, h2⟩ | ⟨h1, h2⟩
    · exact Or.inl ⟨h1, h2⟩
    · refine Or.inr ⟨h1, ?_⟩
      simp only [ne_eq, List.map_eq_nil_iff]
      exact h2
  constructor
  · have hd : ((processOrder productsCache prevRows order).1.map PositionRow.deliveryAllocR)
        = ((order.positions.map (fun p => p.priceMinor / 100 * p.quantity)).map
            (fun r => positionShare (order.sumMinor / 100) order.positions.length r)).map
            (fun s => round2
              ((extract_commission_and_delivery order.attributes order.sumMinor).deliveryCost
                * s)) := by
      rw [hproc, List.map_map, List.map_map, List.map_map]
      rfl
    rw [hd]
    have hb := alloc_sum_round2
      ((extract_commission_and_delivery order.attributes order.sumMinor).deliveryCost)
      ((order.positions.map (fun p => p.priceMinor / 100 * p.quantity)).map
        (fun r => positionShare (order.sumMinor / 100) order.positions.length r)) hs
    rw [List.length_map, hlen] at hb
    exact hb
  · have hd : ((processOrder productsCache prevRows order).1.map PositionRow.commissionAllocR)
        = ((order.positions.map (fun p => p.priceMinor / 100 * p.quantity)).map
            (fun r => positionShare (order.sumMinor / 100) order.positions.length r)).map
            (fun s => round2
              ((extract_commission_and_delivery order.attributes order.sumMinor).commissionSum
                * s)) := by
      rw [hproc, List.map_map, List.map_map, List.map_map]
      rfl
    rw [hd]
    have hb := alloc_sum_round2
      ((extract_commission_and_delivery order.attributes order.sumMinor).commissionSum)
      ((order.positions.map (fun p => p.priceMinor / 100 * p.quantity)).map
        (fun r => positionShare (order.sumMinor / 100) order.positions.length r)) hs
    rw [List.length_map, hlen] at hb
    exact hb

/-- Witness order for C1: revenue 100.00, two lines 60.00 and 40.00,
delivery attribute 50. -/
def c1wOrder : Order :=
  ⟨"W1", 10000, 0, [⟨"Стоимость доставки", .num 50⟩],
    [⟨⟨"a", none, none, none⟩, "product", 1, 6000⟩,
     ⟨⟨"b", none, none, none⟩, "product", 1, 4000⟩]⟩

theorem C1_allocation_reconciliation_witness :
    |(((processOrder [] [] c1wOrder).1.map PositionRow.deliveryAllocR).sum)
        - (extract_commission_and_delivery c1wOrder.attributes c1wOrder.sumMinor).deliveryCost|
      ≤ (c1wOrder.positions.length : ℚ) / 100
    ∧ |(((processOrder [] [] c1wOrder).1.map PositionRow.commissionAllocR).sum)
        - (extract_commission_and_delivery c1wOrder.attributes c1wOrder.sumMinor).commissionSum|
      ≤ (c1wOrder.positions.length : ℚ) / 100 :=
  C1_allocation_reconciliation [] [] c1wOrder
    (Or.inl ⟨by norm_num [c1wOrder], by simp [c1wOrder]; norm_num⟩)

/-- Counterexample order for C1 as frozen: the order's sum field is
10000 minor units (100.00) but its single line has revenue 50.00, so the
line's share is 0.5 and only 25 of the 50 delivery cost is allocated. -/
def cexOrderC1 : Order :=
  ⟨"B", 10000, 0, [⟨"Стоимость доставки", .num 50⟩],
    [⟨⟨"i1", none, none, none⟩, "product", 1, 5000⟩]⟩

/-- Claim C1 as frozen is false: for cexOrderC1 the rounded allocated
delivery sums to 25 while the extracted delivery cost is 50, far outside
the 0.01-per-line tolerance. -/
theorem C1_counterexample :
    (extract_commission_and_delivery cexOrderC1.attributes cexOrderC1.sumMinor).deliveryCost
      = 50
    ∧ ((processOrder [] [] cexOrderC1).1.map PositionRow.deliveryAllocR).sum = 25
    ∧ ¬ (|(((processOrder [] [] cexOrderC1).1.map PositionRow.deliveryAllocR).sum)
          - (extract_commission_and_delivery cexOrderC1.attributes
              cexOrderC1.sumMinor).deliveryCost|
        ≤ ((cexOrderC1.positions.length : ℚ) / 100)) := by
  have hcosts : extract_commission_and_delivery cexOrderC1.attributes cexOrderC1.sumMinor
      = ⟨0, 0, 50⟩ := by
    simp +decide only [cexOrderC1, extract_commission_and_delivery, extractLoop,
      List.foldl, extractStep, commissionStep, deliveryRuleB, numVal]
    norm_num
  have hrows : ((processOrder [] [] cexOrderC1).1.map PositionRow.deliveryAllocR)
      = [round2 ((extract_commission_and_delivery cexOrderC1.attributes
          cexOrderC1.sumMinor).deliveryCost
            * positionShare (cexOrderC1.sumMinor / 100) cexOrderC1.positions.length
                ((5000 : ℚ) / 100 * 1))] := rfl
  have hshare : positionShare ((10000 : ℚ) / 100) 1 ((5000 : ℚ) / 100 * 1) = 1 / 2 := by
    rw [positionShare, if_pos (by norm_num : (0 : ℚ) < 10000 / 100)]
    norm_num
  have h25 : ((processOrder [] [] cexOrderC1).1.map PositionRow.deliveryAllocR).sum = 25 := by
    rw [hrows, hcosts]
    show [round2 ((50 : ℚ) * positionShare ((10000 : ℚ) / 100) 1 ((5000 : ℚ) / 100 * 1))].sum
      = 25
    rw [hshare]
    have : (50 : ℚ) * (1 / 2) = 25 := by norm_num
    rw [this, List.sum_cons, List.sum_nil, round2_eq_self 25 2500 (by norm_num)]
    norm_num
  refine ⟨by rw [hcosts], h25, ?_⟩
  rw [h25, hcosts]
  show ¬ (|(25 : ℚ) - 50| ≤ ((cexOrderC1.positions.length : ℚ) / 100))
  have hlen1 : cexOrderC1.positions.length = 1 := rfl
  have habs : |(25 : ℚ) - 50| = 25 := by
    rw [show (25 : ℚ) - 50 = -25 from by norm_num, abs_neg]
    exact abs_of_nonneg (by norm_num)
  rw [hlen1, habs]
  norm_num

/-- Claim C2: each line's share is revenue / orderRevenue when the order
revenue is positive, else 1 / lineCount when there are lines, else 0; and
for a zero-revenue order with lines, every share is 1/N and the shares sum
to 1. -/
theorem C2_share_rule (productsCache : List (String × Item))
    (prevRows : List PositionRow) (order : Order) :
    ((processOrder productsCache prevRows order).1.map PositionRow.share)
      = order.positions.map (fun p =>
          if 0 < order.sumMinor / 100 then
            (p.priceMinor / 100 * p.quantity) / (order.sumMinor / 100)
          else if 0 < order.positions.length then
            1 / (order.positions.length : ℚ)
          else 0)
    ∧ (order.sumMinor = 0 → order.positions ≠ [] →
        (∀ s ∈ (processOrder productsCache prevRows order).1.map PositionRow.share,
            s = 1 / (order.positions.length : ℚ))
        ∧ ((processOrder productsCache prevRows order).1.map PositionRow.share).sum = 1) := by
  have hproc : (processOrder productsCache prevRows order).1
      = order.positions.map (processPosition order.name
          (extract_commission_and_delivery order.attributes order.sumMinor)
          (order.sumMinor / 100) order.positions.length productsCache) := rfl
  have h1 : ((processOrder productsCache prevRows order).1.map PositionRow.share)
      = order.positions.map (fun p =>
          positionShare (order.sumMinor / 100) order.positions.length
            (p.priceMinor / 100 * p.quantity)) := by
    rw [hproc, List.map_map]
    rfl
  constructor
  · rw [h1]
    rfl
  · intro hz hne
    have hosum : order.sumMinor / 100 = 0 := by rw [hz]; norm_num
    have hnpos : ¬ 0 < order.sumMinor / 100 := by rw [hosum]; norm_num
    have hlen : 0 < order.positions.length := List.length_pos.mpr hne
    constructor
    · intro s hsmem
      rw [h1] at hsmem
      obtain ⟨p, hp, rfl⟩ := List.mem_map.mp hsmem
      simp [positionShare, hnpos, hlen]
    · rw [h1]
      have h2 : order.positions.map (fun p =>
            positionShare (order.sumMinor / 100) order.positions.length
              (p.priceMinor / 100 * p.quantity))
          = (order.positions.map (fun p => p.priceMinor / 100 * p.quantity)).map
              (fun r => positionShare (order.sumMinor / 100) order.positions.length r) := by
        rw [List.map_map]
        rfl
      rw [h2]
      have hlen2 : (order.positions.map (fun p => p.priceMinor / 100 * p.quantity)).length
          = order.positions.length := List.length_map _ _
      rw [← hlen2]
      apply shares_sum_one
      refine Or.inr ⟨le_of_eq hosum, ?_⟩
      simp only [ne_eq, List.map_eq_nil_iff]
      exact hne

/-- Witness order for C2: zero revenue, two lines. -/
def c2wOrder : Order :=
  ⟨"W2", 0, 0, [],
    [⟨⟨"a", none, none, none⟩, "product", 1, 100⟩,
     ⟨⟨"b", none, none, none⟩, "product", 1, 300⟩]⟩

theorem C2_share_rule_witness :
    ((processOrder [] [] c2wOrder).1.map PositionRow.share).sum = 1 :=
  ((C2_share_rule [] [] c2wOrder).2 rfl (List.cons_ne_nil _ _)).2

/- ===== Extractor characterization lemmas ===== -/

theorem commissionStep_deliveryCost (acc : ExtractAcc) (name : String) (v : ℚ) :
    (commissionStep acc name v).deliveryCost = acc.deliveryCost := by
  simp only [commissionStep]
  split_ifs <;> rfl

theorem foldl_extractStep_delivery :
    ∀ (attrs : List OrderAttr) (acc : ExtractAcc),
      (attrs.foldl extractStep acc).deliveryCost
        = acc.deliveryCost
          + (((attrs.filter (fun a => (numVal a).isSome && deliveryRuleB a.name)).filterMap
              numVal).sum)
  | [], acc => by simp
  | a :: t, acc => by
    rw [List.foldl_cons, foldl_extractStep_delivery t (extractStep acc a)]
    rcases hnv : numVal a with _ | v
    · have h1 : extractStep acc a = acc := by
        simp [extractStep, hnv]
      have h2 : (a :: t).filter (fun a => (numVal a).isSome && deliveryRuleB a.name)
          = t.filter (fun a => (numVal a).isSome && deliveryRuleB a.name) := by
        simp [List.filter_cons, hnv]
      rw [h1, h2]
    · cases hd : deliveryRuleB a.name
      · have h1 : (extractStep acc a).deliveryCost = acc.deliveryCost := by
          simp [extractStep, hnv, hd, commissionStep_deliveryCost]
        have h2 : (a :: t).filter (fun a => (numVal a).isSome && deliveryRuleB a.name)
            = t.filter (fun a => (numVal a).isSome && deliveryRuleB a.name) := by
          simp [List.filter_cons, hnv, hd]
        rw [h1, h2]
      · have h1 : (extractStep acc a).deliveryCost = acc.deliveryCost + v := by
          simp [extractStep, hnv, hd, commissionStep_deliveryCost]
        have h2 : (a :: t).filter (fun a => (numVal a).isSome && deliveryRuleB a.name)
            = a :: t.filter (fun a => (numVal a).isSome && deliveryRuleB a.name) := by
          simp [List.filter_cons, hnv, hd]
        rw [h1, h2, List.filterMap_cons, hnv]
        simp only [List.sum_cons]
        ring

theorem foldl_extractStep_filter_numeric :
    ∀ (attrs : List OrderAttr) (acc : ExtractAcc),
      attrs.foldl extractStep acc
        = (attrs.filter (fun a => (numVal a).isSome)).foldl extractStep acc
  | [], _ => rfl
  | a :: t, acc => by
    rcases hnv : numVal a with _ | v
    · have h1 : extractStep acc a = acc := by simp [extractStep, hnv]
      have h2 : (a :: t).filter (fun a => (numVal a).isSome)
          = t.filter (fun a => (numVal a).isSome) := by
        simp [List.filter_cons, hnv]
      rw [List.foldl_cons, h1, h2, foldl_extractStep_filter_numeric t acc]
    · have h2 : (a :: t).filter (fun a => (numVal a).isSome)
          = a :: t.filter (fun a => (numVal a).isSome) := by
        simp [List.filter_cons, hnv]
      rw [List.foldl_cons, h2, List.foldl_cons,
        foldl_extractStep_filter_numeric t (extractStep acc a)]

/-- An attribute actually changes the extractor state: it is numeric and
matches one of the four effective rules (commission-on-goods,
commission-on-delivery, general commission with a percent sign or a sum
keyword, or the delivery rule). -/
def attrHasEffect (a : OrderAttr) : Bool :=
  (numVal a).isSome
    && ((containsSub (lowerStr a.name) "комисс" && containsSub (lowerStr a.name) "товар")
      || (containsSub (lowerStr a.name) "комисс" && containsSub (lowerStr a.name) "доставк")
      || (containsSub (lowerStr a.name) "комисс"
          && (containsSub a.name.data "%" || containsSub (lowerStr a.name) "сумма"))
      || deliveryRuleB a.name)

theorem extractStep_no_effect (acc : ExtractAcc) (a : OrderAttr)
    (h : attrHasEffect a = false) : extractStep acc a = acc := by
  rcases hnv : numVal a with _ | v
  · simp [extractStep, hnv]
  · simp only [attrHasEffect, hnv, Option.isSome_some, Bool.true_and,
      Bool.or_eq_false_iff, Bool.and_eq_false_iff] at h
    obtain ⟨⟨⟨h1, h2⟩, h3⟩, h4⟩ := h
    simp only [extractStep, hnv, h4, if_false, Bool.false_eq_true]
    simp only [commissionStep]
    rcases Bool.eq_false_or_eq_true (containsSub (lowerStr a.name) "комисс") with hk | hk
    case inr => simp [hk]
    case inl =>
      have ht : containsSub (lowerStr a.name) "товар" = false := by
        rcases h1 with h1 | h1
        · rw [h1] at hk
          exact absurd hk (by simp)
        · exact h1
      have hdo : containsSub (lowerStr a.name) "доставк" = false := by
        rcases h2 with h2 | h2
        · rw [h2] at hk
          exact absurd hk (by simp)
        · exact h2
      have hps : containsSub a.name.data "%" = false
          ∧ containsSub (lowerStr a.name) "сумма" = false := by
        rcases h3 with h3 | h3
        · rw [h3] at hk
          exact absurd hk (by simp)
        · exact h3
      simp [hk, ht, hdo, hps.1, hps.2]

theorem foldl_extractStep_no_effect :
    ∀ (attrs : List OrderAttr) (acc : ExtractAcc),
      (∀ a ∈ attrs, attrHasEffect a = false) → attrs.foldl extractStep acc = acc
  | [], _, _ => rfl
  | a :: t, acc, h => by
    rw [List.foldl_cons, extractStep_no_effect acc a (h a (List.mem_cons_self a t))]
    exact foldl_extractStep_no_effect t acc (fun x hx => h x (List.mem_cons_of_mem a hx))

/-- Claim C3 (amended): the percent fallback fires exactly when the
accumulated commission sum is 0 and the accumulated percent is positive
(an explicit nonzero accumulated sum always wins, and the commission
keywords are the Russian stem, so the concrete attributes are named
"Комиссия %" and "Комиссия сумма"): with "Комиссия %" = 10 and order
revenue 1000 the result is 100, and adding "Комиссия сумма" = 50 makes
the explicit sum 50 win. -/
theorem C3_commission_precedence :
    (∀ (attrs : List OrderAttr) (osum : ℚ), (extractLoop attrs).commissionSum ≠ 0 →
        (extract_commission_and_delivery attrs osum).commissionSum
          = (extractLoop attrs).commissionSum)
    ∧ (∀ (attrs : List OrderAttr) (osum : ℚ),
        0 < (extractLoop attrs).commissionPercent →
        (extractLoop attrs).commissionSum = 0 →
        (extract_commission_and_delivery attrs osum).commissionSum
          = osum / 100 * ((extractLoop attrs).commissionPercent / 100))
    ∧ (extract_commission_and_delivery [⟨"Комиссия %", .num 10⟩] 100000).commissionSum
        = 100
    ∧ (extract_commission_and_delivery
        [⟨"Комиссия %", .num 10⟩, ⟨"Комиссия сумма", .num 50⟩] 100000).commissionSum
        = 50 := by
  refine ⟨?_, ?_, ?_, ?_⟩
  · intro attrs osum h
    simp only [extract_commission_and_delivery]
    rw [if_neg]
    intro hcon
    exact h hcon.2
  · intro attrs osum h1 h2
    simp only [extract_commission_and_delivery]
    rw [if_pos ⟨h1, h2⟩]
  · simp +decide only [extract_commission_and_delivery, extractLoop, List.foldl,
      extractStep, commissionStep, deliveryRuleB, numVal]
    norm_num
  · simp +decide only [extract_commission_and_delivery, extractLoop, List.foldl,
      extractStep, commissionStep, deliveryRuleB, numVal]
    norm_num

theorem C3_commission_precedence_witness :
    (extract_commission_and_delivery [⟨"Комиссия сумма", .num 50⟩] 100000).commissionSum
      = (extractLoop [⟨"Комиссия сумма", .num 50⟩]).commissionSum := by
  apply C3_commission_precedence.1
  simp +decide only [extractLoop, List.foldl, extractStep, commissionStep,
    deliveryRuleB, numVal]
  norm_num

/-- Claim C3 as frozen is false on the code: the extractor matches the
Russian stem only, so the attribute "Commission %" = 10 with order
revenue 1000 yields commissionSum 0, not the claimed 100. -/
theorem C3_counterexample :
    (extract_commission_and_delivery [⟨"Commission %", .num 10⟩] 100000).commissionSum = 0
    ∧ ((0 : ℚ) ≠ 100) := by
  constructor
  · simp +decide only [extract_commission_and_delivery, extractLoop, List.foldl,
      extractStep, commissionStep, deliveryRuleB, numVal]
  · norm_num

/-- Claim C6 (amended): an attribute's parsed value is added to
deliveryCost exactly when its lowercased name contains the stem "доставк"
or "delivery", does not contain the stem "комисс", and contains one of
"стоимость", "сумма", "цена", "cost" (deliveryRuleB); deliveryCost equals
the sum of the values of exactly those numeric attributes, independent of
the commission rules and of the percent fallback. -/
theorem C6_delivery_rule (attrs : List OrderAttr) (orderSumMinor : ℚ) :
    (extract_commission_and_delivery attrs orderSumMinor).deliveryCost
      = (((attrs.filter (fun a => (numVal a).isSome && deliveryRuleB a.name)).filterMap
          numVal).sum) := by
  have h := foldl_extractStep_delivery attrs ⟨0, 0, 0⟩
  simp only [extract_commission_and_delivery]
  split
  · show (extractLoop attrs).deliveryCost = _
    rw [extractLoop, h]
    simp
  · rw [extractLoop, h]
    simp

/-- Claim C6 as frozen is false on the code: the keyword list does not
include "price", so the attribute "Delivery price" = 5 contributes
nothing to deliveryCost, while the claim predicts 5. -/
theorem C6_counterexample :
    (extract_commission_and_delivery [⟨"Delivery price", .num 5⟩] 0).deliveryCost = 0
    ∧ ((0 : ℚ) ≠ 5) := by
  constructor
  · simp +decide only [extract_commission_and_delivery, extractLoop, List.foldl,
      extractStep, commissionStep, deliveryRuleB, numVal]
  · norm_num

/-- Claim C9: the extractor is a total function; attributes whose value is
null/empty or non-numeric contribute nothing (the result equals the result
on the numeric attributes alone), and when no attribute matches any
effective classification rule the result is all zeros. -/
theorem C9_extractor_robustness (attrs : List OrderAttr) (osum : ℚ) :
    extract_commission_and_delivery attrs osum
      = extract_commission_and_delivery (attrs.filter (fun a => (numVal a).isSome)) osum
    ∧ ((∀ a ∈ attrs, attrHasEffect a = false) →
        extract_commission_and_delivery attrs osum = ⟨0, 0, 0⟩) := by
  constructor
  · simp only [extract_commission_and_delivery, extractLoop]
    rw [foldl_extractStep_filter_numeric]
  · intro h
    simp only [extract_commission_and_delivery, extractLoop]
    rw [foldl_extractStep_no_effect attrs ⟨0, 0, 0⟩ h]
    rw [if_neg]
    intro hcon
    exact lt_irrefl 0 hcon.1

theorem C9_extractor_robustness_witness :
    extract_commission_and_delivery
        [⟨"размер", .nonNumeric⟩, ⟨"вес", .num 7⟩] 500 = ⟨0, 0, 0⟩ :=
  (C9_extractor_robustness [⟨"размер", .nonNumeric⟩, ⟨"вес", .num 7⟩] 500).2 (by decide)

/- ===== Resolver lemmas and claims ===== -/

/-- The invariant claimed for resolver results: unit cost is nonnegative,
and it is positive exactly when the source is not the not-found tag. -/
def GoodCost (c : CostInfo) : Prop :=
  0 ≤ c.value ∧ (0 < c.value ↔ c.source ≠ "не найдена")

theorem goodCost_notFound : GoodCost notFoundInfo := by
  constructor
  · simp [notFoundInfo]
  · simp [notFoundInfo]

theorem bundleSource_ne (a : String) : bundleSource a ≠ "не найдена" := by
  intro h
  have h1 := congrArg String.length h
  rw [bundleSource, String.length_append, String.length_append] at h1
  have e1 : ("основной товар (арт. " : String).length = 21 := by decide
  have e2 : (")" : String).length = 1 := by decide
  have e3 : ("не найдена" : String).length = 10 := by decide
  rw [e1, e2, e3] at h1
  omega

theorem goodCost_pos (v : ℚ) (s : String) (hv : 0 < v) (hs : s ≠ "не найдена") :
    GoodCost ⟨v, s⟩ := by
  refine ⟨le_of_lt hv, ?_⟩
  simp only [hv, true_iff]
  exact hs

theorem variantBase_good (api : Api) (st : RState) (item : Item) :
    GoodCost (variantBase api st item).1 ∧ (variantBase api st item).2.1 = st := by
  rw [variantBase]
  repeat' split
  all_goals
    first
      | exact ⟨goodCost_notFound, rfl⟩
      | (rename_i hw
         exact ⟨goodCost_pos _ _ hw (by decide), rfl⟩)

theorem resolveFresh_good (api : Api) (st : RState) (item : Item) (ty : String) :
    GoodCost (resolveFresh api st item ty).1
    ∧ (resolveFresh api st item ty).2.1.buyPriceCache = st.buyPriceCache := by
  rw [resolveFresh]
  repeat' split
  all_goals
    first
      | exact ⟨goodCost_notFound, rfl⟩
      | exact ⟨(variantBase_good api st item).1, by rw [(variantBase_good api st item).2]⟩
      | (rename_i hv
         exact ⟨goodCost_pos _ _ hv (by first | decide | exact bundleSource_ne _), rfl⟩)

theorem variantBase_base_found (api : Api) (st : RState) (item : Item)
    (href : String) (base : Item) (w : ℚ)
    (hhref : item.productHref = some href) (hne : href ≠ "")
    (hapi : api.itemByHref href = some base) (hbp : base.buyPrice = some w)
    (hw : 0 < w) :
    (variantBase api st item).1 = ⟨w, "базовый товар модификации"⟩ := by
  simp only [variantBase, hhref, if_neg hne, hapi, hbp, if_pos hw]

theorem variantBase_notFound (api : Api) (st : RState) (item : Item)
    (hbase : ∀ href, item.productHref = some href → href ≠ "" →
      ∀ base, api.itemByHref href = some base → ∀ w, base.buyPrice = some w → ¬ 0 < w) :
    (variantBase api st item).1 = notFoundInfo := by
  rcases hph : item.productHref with _ | href
  · simp only [variantBase, hph]
  · by_cases he : href = ""
    · simp only [variantBase, hph, if_pos he]
    · rcases hapi : api.itemByHref href with _ | base
      · simp only [variantBase, hph, if_neg he, hapi]
      · rcases hbp : base.buyPrice with _ | w
        · simp only [variantBase, hph, if_neg he, hapi, hbp]
        · have hw := hbase href hph he base hapi w hbp
          simp only [variantBase, hph, if_neg he, hapi, hbp, if_neg hw]

/-- Claim C5: for a catalog entry resolved as a Variant (no buy-price-cache
hit for its id), the resolver returns the variant's own buy price with
source "модификация" when it is positive; otherwise it follows the
base-product reference and returns the base product's buy price with
source "базовый товар модификации" when that is positive; otherwise it
returns the not-found result with unit cost 0.  The source tag records
which rule fired. -/
theorem C5_variant_resolution (api : Api) (st : RState) (item : Item)
    (hc : alookup st.buyPriceCache item.id = none) :
    (∀ v, item.buyPrice = some v → 0 < v →
        (get_buy_price_for_item api st item "variant").1 = ⟨v, "модификация"⟩)
    ∧ ((∀ v, item.buyPrice = some v → ¬ 0 < v) →
        ∀ href base w, item.productHref = some href → href ≠ "" →
          api.itemByHref href = some base → base.buyPrice = some w → 0 < w →
          (get_buy_price_for_item api st item "variant").1
            = ⟨w, "базовый товар модификации"⟩)
    ∧ ((∀ v, item.buyPrice = some v → ¬ 0 < v) →
        (∀ href, item.productHref = some href → href ≠ "" →
          ∀ base, api.itemByHref href = some base →
            ∀ w, base.buyPrice = some w → ¬ 0 < w) →
        (get_buy_price_for_item api st item "variant").1 = notFoundInfo) := by
  have hmain : (get_buy_price_for_item api st item "variant").1
      = (resolveFresh api st item "variant").1 := by
    simp only [get_buy_price_for_item, hc]
  have hvar : (resolveFresh api st item "variant")
      = (match item.buyPrice with
         | some v =>
           if 0 < v then (⟨v, "модификация"⟩, st, 0) else variantBase api st item
         | none => variantBase api st item) := by
    rw [resolveFresh, if_neg (by decide : ¬("variant" : String) = "product"),
      if_neg (by decide : ¬("variant" : String) = "bundle"),
      if_pos (rfl : ("variant" : String) = "variant")]
  refine ⟨?_, ?_, ?_⟩
  · intro v hv hpos
    rw [hmain, hvar]
    simp only [hv, if_pos hpos]
  · intro hown href base w hhref hne hapi hbp hw
    rw [hmain, hvar]
    rcases hb : item.buyPrice with _ | v
    · simp only
      exact variantBase_base_found api st item href base w hhref hne hapi hbp hw
    · simp only [if_neg (hown v hb)]
      exact variantBase_base_found api st item href base w hhref hne hapi hbp hw
  · intro hown hbase
    rw [hmain, hvar]
    rcases hb : item.buyPrice with _ | v
    · simp only
      exact variantBase_notFound api st item hbase
    · simp only [if_neg (hown v hb)]
      exact variantBase_notFound api st item hbase

/-- Witness data for C5: a variant with a zero own buy price whose base
product carries buy price 700. -/
def c5wApi : Api :=
  ⟨fun _ => none,
   fun h => if h = "hrefB" then some ⟨"base", some 700, none, none⟩ else none⟩

def c5wItem : Item := ⟨"var1", some 0, none, some "hrefB"⟩

theorem C5_variant_resolution_witness :
    (get_buy_price_for_item c5wApi ⟨[], []⟩ c5wItem "variant").1
      = ⟨700, "базовый товар модификации"⟩ := by
  apply (C5_variant_resolution c5wApi ⟨[], []⟩ c5wItem rfl).2.1
  · intro v hv
    have hv2 : (0 : ℚ) = v := by
      have : (some (0 : ℚ)) = some v := hv
      exact Option.some.inj this
    rw [← hv2]
    norm_num
  · rfl
  · decide
  · show (if ("hrefB" : String) = "hrefB" then some (⟨"base", some 700, none, none⟩ : Item)
        else none) = some ⟨"base", some 700, none, none⟩
    rw [if_pos rfl]
  · rfl
  · norm_num

/-- Claim C8: with every external lookup failing (the API returns no
product, as MoySkladAPI does after catching any network or HTTP error),
the resolver is still a total function and degrades to the not-found
result with unit cost 0, both for a bundle whose article is not locally
cached and for a variant without a positive own buy price; batch
processing (resolveAll) therefore continues past the failure. -/
theorem C8_lookup_failure (api : Api) (st : RState) (item : Item)
    (hfa : ∀ s, api.productByArticle s = none)
    (hfh : ∀ s, api.itemByHref s = none)
    (hc : alookup st.buyPriceCache item.id = none) :
    ((∀ a, item.article = some a → alookup st.productCache a = none) →
        (get_buy_price_for_item api st item "bundle").1 = notFoundInfo)
    ∧ ((∀ v, item.buyPrice = some v → ¬ 0 < v) →
        (get_buy_price_for_item api st item "variant").1 = notFoundInfo) := by
  constructor
  · intro hpc
    have hmain : (get_buy_price_for_item api st item "bundle").1
        = (resolveFresh api st item "bundle").1 := by
      simp only [get_buy_price_for_item, hc]
    have hb : (resolveFresh api st item "bundle")
        = (match item.article with
           | some a =>
             if a = "" then (notFoundInfo, st, 0)
             else
               match alookup st.productCache a with
               | some base =>
                 match base.buyPrice with
                 | some v =>
                   if 0 < v then (⟨v, bundleSource a⟩, st, 0)
                   else (notFoundInfo, st, 0)
                 | none => (notFoundInfo, st, 0)
               | none =>
                 match api.productByArticle a with
                 | some base =>
                   let st1 : RState :=
                     { st with productCache := ainsert st.productCache a base }
                   match base.buyPrice with
                   | some v =>
                     if 0 < v then (⟨v, bundleSource a⟩, st1, 1)
                     else (notFoundInfo, st1, 1)
                   | none => (notFoundInfo, st1, 1)
                 | none => (notFoundInfo, st, 1)
           | none => (notFoundInfo, st, 0)) := by
      rw [resolveFresh, if_neg (by decide : ¬("bundle" : String) = "product"),
        if_pos (rfl : ("bundle" : String) = "bundle")]
    rw [hmain, hb]
    rcases hart : item.article with _ | a
    · simp only
    · by_cases ha : a = ""
      · simp only [if_pos ha]
      · simp only [if_neg ha, hpc a hart, hfa a]
  · intro hown
    have hmain : (get_buy_price_for_item api st item "variant").1
        = (resolveFresh api st item "variant").1 := by
      simp only [get_buy_price_for_item, hc]
    have hvar : (resolveFresh api st item "variant")
        = (match item.buyPrice with
           | some v =>
             if 0 < v then (⟨v, "модификация"⟩, st, 0) else variantBase api st item
           | none => variantBase api st item) := by
      rw [resolveFresh, if_neg (by decide : ¬("variant" : String) = "product"),
        if_neg (by decide : ¬("variant" : String) = "bundle"),
        if_pos (rfl : ("variant" : String) = "variant")]
    have hnf : (variantBase api st item).1 = notFoundInfo := by
      apply variantBase_notFound
      intro href hhref hne base hapi
      rw [hfh href] at hapi
      exact absurd hapi (by simp)
    rw [hmain, hvar]
    rcases hb : item.buyPrice with _ | v
    · simp only
      exact hnf
    · simp only [if_neg (hown v hb)]
      exact hnf

/-- The all-failing API used by the C8 and C10 witnesses. -/
def failApi : Api := ⟨fun _ => none, fun _ => none⟩

theorem C8_lookup_failure_witness :
    (get_buy_price_for_item failApi ⟨[], []⟩ ⟨"b1", none, some "X", none⟩ "bundle").1
      = notFoundInfo :=
  (C8_lookup_failure failApi ⟨[], []⟩ ⟨"b1", none, some "X", none⟩
    (fun _ => rfl) (fun _ => rfl) rfl).1 (fun _ _ => rfl)

/-- Claim C10: for every item, item type and cache state whose buy-price
cache satisfies the invariant, the returned CostInfo has nonnegative
unit cost, positive exactly when the source is not the not-found tag,
and the updated buy-price cache satisfies the invariant again (so every
state reachable from the empty caches satisfies it). -/
theorem C10_cost_invariant (api : Api) (st : RState) (item : Item) (ty : String)
    (hst : ∀ k c, alookup st.buyPriceCache k = some c → GoodCost c) :
    GoodCost (get_buy_price_for_item api st item ty).1
    ∧ (∀ k c,
        alookup (get_buy_price_for_item api st item ty).2.1.buyPriceCache k = some c →
        GoodCost c) := by
  rcases hbc : alookup st.buyPriceCache item.id with _ | r
  · have hres : get_buy_price_for_item api st item ty
        = ((resolveFresh api st item ty).1,
           { (resolveFresh api st item ty).2.1 with
              buyPriceCache := ainsert (resolveFresh api st item ty).2.1.buyPriceCache
                item.id (resolveFresh api st item ty).1 },
           (resolveFresh api st item ty).2.2) := by
      simp only [get_buy_price_for_item, hbc]
    constructor
    · rw [hres]
      exact (resolveFresh_good api st item ty).1
    · intro k c hkc
      rw [hres] at hkc
      have hkc2 : alookup (ainsert (resolveFresh api st item ty).2.1.buyPriceCache
          item.id (resolveFresh api st item ty).1) k = some c := hkc
      rw [alookup_ainsert] at hkc2
      by_cases hk : item.id = k
      · rw [if_pos hk] at hkc2
        obtain rfl := Option.some.inj hkc2
        exact (resolveFresh_good api st item ty).1
      · rw [if_neg hk] at hkc2
        rw [(resolveFresh_good api st item ty).2] at hkc2
        exact hst k c hkc2
  · have hres : get_buy_price_for_item api st item ty = (r, st, 0) := by
      simp only [get_buy_price_for_item, hbc]
    constructor
    · rw [hres]
      exact hst item.id r hbc
    · intro k c hkc
      rw [hres] at hkc
      exact hst k c hkc

theorem C10_cost_invariant_witness :
    GoodCost (get_buy_price_for_item failApi ⟨[], []⟩
      ⟨"p1", some 500, none, none⟩ "product").1 :=
  (C10_cost_invariant failApi ⟨[], []⟩ ⟨"p1", some 500, none, none⟩ "product"
    (fun k c h => by simp [alookup] at h)).1

theorem resolveFresh_bundle (api : Api) (st : RState) (item : Item) :
    resolveFresh api st item "bundle"
      = (match item.article with
         | some a =>
           if a = "" then (notFoundInfo, st, 0)
           else
             match alookup st.productCache a with
             | some base =>
               match base.buyPrice with
               | some v =>
                 if 0 < v then (⟨v, bundleSource a⟩, st, 0)
                 else (notFoundInfo, st, 0)
               | none => (notFoundInfo, st, 0)
             | none =>
               match api.productByArticle a with
               | some base =>
                 let st1 : RState :=
                   { st with productCache := ainsert st.productCache a base }
                 match base.buyPrice with
                 | some v =>
                   if 0 < v then (⟨v, bundleSource a⟩, st1, 1)
                   else (notFoundInfo, st1, 1)
                 | none => (notFoundInfo, st1, 1)
               | none => (notFoundInfo, st, 1)
         | none => (notFoundInfo, st, 0)) := by
  rw [resolveFresh, if_neg (by decide : ¬("bundle" : String) = "product"),
    if_pos (rfl : ("bundle" : String) = "bundle")]

theorem resolveFresh_bundle_cached (api : Api) (st : RState) (item : Item)
    (a : String) (q : Item) (hart : item.article = some a) (ha : a ≠ "")
    (hpc : alookup st.productCache a = some q) :
    (resolveFresh api st item "bundle").2 = (st, 0) := by
  rw [resolveFresh_bundle, hart]
  simp only [if_neg ha, hpc]
  repeat' split
  all_goals rfl

theorem resolveFresh_bundle_miss_found (api : Api) (st : RState) (item : Item)
    (a : String) (p : Item) (hart : item.article = some a) (ha : a ≠ "")
    (hpc : alookup st.productCache a = none) (hapi : api.productByArticle a = some p) :
    (resolveFresh api st item "bundle").2.2 = 1
    ∧ alookup (resolveFresh api st item "bundle").2.1.productCache a = some p := by
  have hkey : alookup (ainsert st.productCache a p) a = some p := by
    rw [alookup_ainsert, if_pos rfl]
  rw [resolveFresh_bundle, hart]
  simp only [if_neg ha, hpc, hapi]
  constructor
  · repeat' split
    all_goals rfl
  · repeat' split
    all_goals exact hkey

theorem gbp_calls_pc (api : Api) (st : RState) (item : Item) (ty : String) :
    ((get_buy_price_for_item api st item ty).2.2 = 0
       ∧ (get_buy_price_for_item api st item ty).2.1.productCache = st.productCache)
    ∨ ((get_buy_price_for_item api st item ty).2.2 = (resolveFresh api st item ty).2.2
       ∧ (get_buy_price_for_item api st item ty).2.1.productCache
           = (resolveFresh api st item ty).2.1.productCache) := by
  rcases hbc : alookup st.buyPriceCache item.id with _ | r
  · right
    simp only [get_buy_price_for_item, hbc]
    constructor <;> trivial
  · left
    simp only [get_buy_price_for_item, hbc]
    constructor <;> trivial

theorem bundle_step_pc_cached (api : Api) (st : RState) (item : Item)
    (a : String) (q : Item) (hart : item.article = some a) (ha : a ≠ "")
    (hpc : alookup st.productCache a = some q) :
    (get_buy_price_for_item api st item "bundle").2.2 = 0
    ∧ (get_buy_price_for_item api st item "bundle").2.1.productCache
        = st.productCache := by
  rcases gbp_calls_pc api st item "bundle" with ⟨h1, h2⟩ | ⟨h1, h2⟩
  · exact ⟨h1, h2⟩
  · have h3 := resolveFresh_bundle_cached api st item a q hart ha hpc
    constructor
    · rw [h1, h3]
    · rw [h2, h3]

theorem bundle_step_cases (api : Api) (st : RState) (item : Item)
    (a : String) (p : Item) (hart : item.article = some a) (ha : a ≠ "")
    (hapi : api.productByArticle a = some p) :
    ((get_buy_price_for_item api st item "bundle").2.2 = 0
       ∧ (get_buy_price_for_item api st item "bundle").2.1.productCache
           = st.productCache)
    ∨ ((get_buy_price_for_item api st item "bundle").2.2 = 1
       ∧ alookup (get_buy_price_for_item api st item "bundle").2.1.productCache a
           = some p) := by
  rcases gbp_calls_pc api st item "bundle" with ⟨h1, h2⟩ | ⟨h1, h2⟩
  · left
    exact ⟨h1, h2⟩
  · rcases hpc : alookup st.productCache a with _ | q
    · right
      obtain ⟨hc1, hc2⟩ := resolveFresh_bundle_miss_found api st item a p hart ha hpc hapi
      rw [h1, h2]
      exact ⟨hc1, hc2⟩
    · left
      have h3 := resolveFresh_bundle_cached api st item a q hart ha hpc
      constructor
      · rw [h1, h3]
      · rw [h2, h3]

theorem resolveAll_pc_cached (api : Api) (a : String) (q : Item) (ha : a ≠ "") :
    ∀ (items : List (Item × String)) (st : RState),
      (∀ it ∈ items, it.2 = "bundle" ∧ it.1.article = some a) →
      alookup st.productCache a = some q →
      (resolveAll api st items).2 = 0
  | [], _, _, _ => rfl
  | it :: rest, st, hits, hpc => by
    obtain ⟨hty, hart⟩ := hits it (List.mem_cons_self it rest)
    have hstep := bundle_step_pc_cached api st it.1 a q hart ha hpc
    simp only [resolveAll, hty]
    rw [hstep.1, resolveAll_pc_cached api a q ha rest _
      (fun x hx => hits x (List.mem_cons_of_mem it hx))
      (by rw [hstep.2]; exact hpc)]

/-- Claim C7 (amended): the bundle resolver populates the article cache
only when the external lookup finds a product; for an article whose
lookup succeeds, at most one external lookup is performed across any
sequence of bundle resolutions sharing that article, whatever the
starting cache state. -/
theorem C7_bundle_memoization (api : Api) (a : String) (p : Item)
    (hapi : api.productByArticle a = some p) (ha : a ≠ "") :
    ∀ (items : List (Item × String)) (st : RState),
      (∀ it ∈ items, it.2 = "bundle" ∧ it.1.article = some a) →
      (resolveAll api st items).2 ≤ 1
  | [], _, _ => by simp [resolveAll]
  | it :: rest, st, hits => by
    obtain ⟨hty, hart⟩ := hits it (List.mem_cons_self it rest)
    simp only [resolveAll, hty]
    rcases bundle_step_cases api st it.1 a p hart ha hapi with ⟨h1, h2⟩ | ⟨h1, h2⟩
    · rw [h1]
      have htail := C7_bundle_memoization api a p hapi ha rest
        (get_buy_price_for_item api st it.1 "bundle").2.1
        (fun x hx => hits x (List.mem_cons_of_mem it hx))
      omega
    · rw [h1]
      have htail := resolveAll_pc_cached api a p ha rest
        (get_buy_price_for_item api st it.1 "bundle").2.1
        (fun x hx => hits x (List.mem_cons_of_mem it hx)) h2
      omega

/-- Witness data for C7: two bundles sharing article "X", which the API
resolves to a product. -/
def c7wApi : Api :=
  ⟨fun s => if s = "X" then some ⟨"base", some 300, none, none⟩ else none,
   fun _ => none⟩

def c7b1 : Item := ⟨"b1", none, some "X", none⟩

def c7b2 : Item := ⟨"b2", none, some "X", none⟩

theorem C7_bundle_memoization_witness :
    (resolveAll c7wApi ⟨[], []⟩ [(c7b1, "bundle"), (c7b2, "bundle")]).2 ≤ 1 :=
  C7_bundle_memoization c7wApi "X" ⟨"base", some 300, none, none⟩ rfl (by decide)
    [(c7b1, "bundle"), (c7b2, "bundle")] ⟨[], []⟩
    (by decide)

/-- Claim C7 as frozen is false on the code: when the external lookup for
article "X" misses, resolving two bundles with that article performs two
external lookups and the article cache is never populated (the cache is
written only when a product is found). -/
theorem C7_counterexample :
    (get_buy_price_for_item failApi ⟨[], []⟩ c7b1 "bundle").2.2 = 1
    ∧ (get_buy_price_for_item failApi
        (get_buy_price_for_item failApi ⟨[], []⟩ c7b1 "bundle").2.1
        c7b2 "bundle").2.2 = 1
    ∧ alookup (get_buy_price_for_item failApi
        (get_buy_price_for_item failApi ⟨[], []⟩ c7b1 "bundle").2.1
        c7b2 "bundle").2.1.productCache "X" = none := by
  refine ⟨rfl, rfl, rfl⟩

/-- Claim C4 (amended): for every order whose name no earlier-processed
row shares, the summary's totalProductCost equals the sum of the emitted
per-line product costs, its full cost is the sum of the per-line raw full
costs (the accumulator, not an independent recomputation), netProfit =
revenue - fullCost - vatSum, margin is netProfit/revenue*100 when revenue
is positive and 0 otherwise, and costAvailable holds exactly when the
accumulated full cost is positive. -/
theorem C4_order_summary (productsCache : List (String × Item))
    (prevRows : List PositionRow) (order : Order)
    (hname : ∀ r ∈ prevRows, r.orderName ≠ order.name) :
    (processOrder productsCache prevRows order).2.totalProductCost
        = (((processOrder productsCache prevRows order).1.map
            PositionRow.productCostR).sum)
    ∧ (processOrder productsCache prevRows order).2.orderCost
        = (((processOrder productsCache prevRows order).1.map PositionRow.fullCost).sum)
    ∧ (processOrder productsCache prevRows order).2.netProfit
        = (processOrder productsCache prevRows order).2.revenue
          - (processOrder productsCache prevRows order).2.orderCost
          - (processOrder productsCache prevRows order).2.vatSum
    ∧ (processOrder productsCache prevRows order).2.marginPercent
        = (if 0 < (processOrder productsCache prevRows order).2.revenue then
            (processOrder productsCache prevRows order).2.netProfit
              / (processOrder productsCache prevRows order).2.revenue * 100
          else 0)
    ∧ ((processOrder productsCache prevRows order).2.costAvailable = true
        ↔ 0 < (processOrder productsCache prevRows order).2.orderCost) := by
  have hproc : (processOrder productsCache prevRows order).1
      = order.positions.map (processPosition order.name
          (extract_commission_and_delivery order.attributes order.sumMinor)
          (order.sumMinor / 100) order.positions.length productsCache) := rfl
  have hnames : ∀ r ∈ (processOrder productsCache prevRows order).1,
      r.orderName = order.name := by
    intro r hr
    rw [hproc] at hr
    obtain ⟨p, hp, rfl⟩ := List.mem_map.mp hr
    rfl
  refine ⟨?_, rfl, rfl, rfl, ?_⟩
  · have h2 : (processOrder productsCache prevRows order).2.totalProductCost
        = round2 ((((prevRows ++ (processOrder productsCache prevRows order).1).filter
            (fun r => r.orderName == order.name)).map PositionRow.productCostR).sum) := rfl
    have hprev : prevRows.filter (fun r => r.orderName == order.name) = [] := by
      rw [List.filter_eq_nil_iff]
      intro r hr
      simp only [beq_iff_eq]
      exact hname r hr
    have hrows : (processOrder productsCache prevRows order).1.filter
        (fun r => r.orderName == order.name)
        = (processOrder productsCache prevRows order).1 := by
      rw [List.filter_eq_self]
      intro r hr
      simp only [beq_iff_eq]
      exact hnames r hr
    have hshape : ∀ x ∈ (processOrder productsCache prevRows order).1.map
        PositionRow.productCostR, ∃ k : ℤ, x = (k : ℚ) / 100 := by
      intro x hx
      rw [hproc] at hx
      obtain ⟨r, hr, rfl⟩ := List.mem_map.mp hx
      obtain ⟨p, hp, rfl⟩ := List.mem_map.mp hr
      exact round2_shape _
    rw [h2, List.filter_append, hprev, hrows, List.nil_append]
    exact round2_fix_sum _ hshape
  · exact decide_eq_true_iff

/-- Witness order for C4: a single order processed with no earlier rows. -/
def c4wOrder : Order :=
  ⟨"W4", 10000, 0, [], [⟨⟨"a", some 1000, none, none⟩, "product", 1, 10000⟩]⟩

theorem C4_order_summary_witness :
    (processOrder [] [] c4wOrder).2.totalProductCost
      = (((processOrder [] [] c4wOrder).1.map PositionRow.productCostR).sum) :=
  (C4_order_summary [] [] c4wOrder (fun r hr => absurd hr (List.not_mem_nil r))).1

/-- Counterexample data for C4 as frozen: two distinct orders that share
the name "A". -/
def c4cexO1 : Order :=
  ⟨"A", 0, 0, [], [⟨⟨"a", some 1000, none, none⟩, "product", 1, 0⟩]⟩

def c4cexO2 : Order :=
  ⟨"A", 0, 0, [], [⟨⟨"b", some 500, none, none⟩, "product", 1, 0⟩]⟩

/-- Claim C4 as frozen is false on the code: the second order named "A"
gets totalProductCost 15 (it sums the accumulated rows of both same-named
orders) while the sum of its own per-line product costs is 5. -/
theorem C4_counterexample :
    ((process_orders [] [c4cexO1, c4cexO2]).2.map OrderSummary.totalProductCost)
      = [10, 15]
    ∧ (((process_orders [] [c4cexO1, c4cexO2]).1.drop 1).map
        PositionRow.productCostR).sum = 5
    ∧ ((15 : ℚ) ≠ 5) := by
  have e10 : round2 (10 : ℚ) = 10 := round2_eq_self 10 1000 (by norm_num)
  have e5 : round2 (5 : ℚ) = 5 := round2_eq_self 5 500 (by norm_num)
  have e15 : round2 (15 : ℚ) = 15 := round2_eq_self 15 1500 (by norm_num)
  refine ⟨?_, ?_, by norm_num⟩
  · simp +decide only [process_orders, processOrdersAux, processOrder, processPosition,
      get_buy_price_opt, positionShare, extract_commission_and_delivery, extractLoop,
      List.foldl, extractStep, commissionStep, deliveryRuleB, numVal, alookup,
      c4cexO1, c4cexO2, List.map, List.filter, List.append, List.sum_cons, List.sum_nil,
      List.length, notFoundInfo]
    norm_num [e10, e5, e15]
  · simp +decide only [process_orders, processOrdersAux, processOrder, processPosition,
      get_buy_price_opt, positionShare, extract_commission_and_delivery, extractLoop,
      List.foldl, extractStep, commissionStep, deliveryRuleB, numVal, alookup,
      c4cexO1, c4cexO2, List.map, List.filter, List.append, List.sum_cons, List.sum_nil,
      List.length, List.drop, notFoundInfo]
    norm_num [e5]
